import Mathlib

/-!
Verification of the `uploader` file-upload service (src/index.ts plus its
`DatabaseManager` module) against its natural-language specification.

The TypeScript program is shallowly embedded: the SQLite `urls` table becomes
a list of `UrlRecord` values (plus the AUTOINCREMENT counter), each
`DatabaseManager` method becomes a pure function over that state, and each
HTTP handler becomes a function from the request data (and oracles for the
filesystem and for `Math.random`) to a response value and the new store state.
-/

namespace Uploader

/-- One row of the SQLite `urls` table (interface `UrlRecord` in database.ts).
`accessCount` has SQL `DEFAULT 0`; `lastAccessedAt` is nullable. -/
structure UrlRecord where
  id : Nat
  shortCode : String
  filename : String
  originalName : String
  uploadedAt : String
  size : Nat
  mimetype : String
  accessCount : Nat
  lastAccessedAt : Option String
deriving Repr, DecidableEq, Inhabited

/-- The persistent store: the rows of the `urls` table together with the
next AUTOINCREMENT surrogate key. -/
structure Store where
  rows : List UrlRecord
  nextId : Nat
deriving Repr, DecidableEq

/-- The 62-character alphabet of `generateShortCode`
(`'ABCDEFGHIJKLMNOPQRSTUVWXYZabcdefghijklmnopqrstuvwxyz0123456789'`). -/
def charsList : List Char :=
  "ABCDEFGHIJKLMNOPQRSTUVWXYZabcdefghijklmnopqrstuvwxyz0123456789".data

/-- `generateShortCode(length)` from src/index.ts: appends `length` characters
`chars.charAt(Math.floor(Math.random() * chars.length))`.  The successive
results of `Math.floor(Math.random() * 62)` are modelled by the oracle
`stream : Nat → Fin 62`; the call consumes positions `offset`, `offset+1`, …
of the oracle. -/
def generateShortCode (stream : Nat → Fin 62) (offset length : Nat) : String :=
  ⟨(List.range length).map fun i => charsList.getD (stream (offset + i)).val 'A'⟩

/-- `DatabaseManager.isShortCodeUsed`: `SELECT COUNT(*) FROM urls WHERE
shortCode = ?` and compares the count with 0. -/
def isShortCodeUsed (rows : List UrlRecord) (code : String) : Bool :=
  decide (0 < rows.countP fun r => r.shortCode == code)

/-- The `while (attempts < maxAttempts)` loop of `generateUniqueShortCode`,
with `fuel = maxAttempts - attempts` (so `fuel = 0` means the ten attempts are
exhausted and the 8-character fallback `generateShortCode(8)` runs, reading
oracle positions 60…67 since the ten 6-character draws consumed 0…59). -/
def genAux (rows : List UrlRecord) (stream : Nat → Fin 62) :
    Nat → Nat → String
  | 0, _ => generateShortCode stream 60 8
  | fuel + 1, attempt =>
    let code := generateShortCode stream (6 * attempt) 6
    if isShortCodeUsed rows code then genAux rows stream fuel (attempt + 1)
    else code

/-- `generateUniqueShortCode()` from src/index.ts: up to 10 draws of
`generateShortCode()` (6 characters), each checked with `isShortCodeUsed`;
falls back to a single unchecked `generateShortCode(8)`. -/
def generateUniqueShortCode (rows : List UrlRecord) (stream : Nat → Fin 62) :
    String :=
  genAux rows stream 10 0

/-- `DatabaseManager.getUrlByShortCode`: `SELECT * FROM urls WHERE
shortCode = ?` with `stmt.get`, returning the first matching row if any. -/
def getUrlByShortCode (rows : List UrlRecord) (code : String) :
    Option UrlRecord :=
  rows.find? fun r => r.shortCode == code

/-- `DatabaseManager.incrementAccessCount`: `UPDATE urls SET accessCount =
accessCount + 1, lastAccessedAt = ? WHERE shortCode = ?`, with `?` bound to
`new Date().toISOString()` (modelled by `now`). -/
def incrementAccessCount (rows : List UrlRecord) (code now : String) :
    List UrlRecord :=
  rows.map fun r =>
    if r.shortCode = code then
      { r with accessCount := r.accessCount + 1, lastAccessedAt := some now }
    else r

/-- `DatabaseManager.deleteUrl`: `DELETE FROM urls WHERE shortCode = ?`,
then returns `this.db.changes > 0`.  The first component is the table after
the deletion, the second the returned boolean (`changes` is the number of
rows the DELETE removed). -/
def deleteUrlOp (rows : List UrlRecord) (code : String) :
    List UrlRecord × Bool :=
  (rows.filter fun r => !(r.shortCode == code),
    decide (0 < rows.countP fun r => r.shortCode == code))

/-- `DatabaseManager.getTotalCount`: `SELECT COUNT(*) FROM urls`. -/
def getTotalCount (rows : List UrlRecord) : Nat :=
  rows.length

/-- Data inserted by `DatabaseManager.insertUrl` (the INSERT omits `id`,
`accessCount` and `lastAccessedAt`, which take their SQL defaults). -/
structure InsertData where
  shortCode : String
  filename : String
  originalName : String
  uploadedAt : String
  size : Nat
  mimetype : String
deriving Repr, DecidableEq

/-- `DatabaseManager.insertUrl`: `INSERT INTO urls (shortCode, filename,
originalName, uploadedAt, size, mimetype) VALUES (?, ?, ?, ?, ?, ?)`.
The table has `shortCode TEXT UNIQUE NOT NULL`, so SQLite rejects the insert
(and the JS call throws) when the short code is already present — modelled by
`none`.  Otherwise the new row gets the AUTOINCREMENT id, `accessCount = 0`
(its SQL default) and `lastAccessedAt = NULL`. -/
def insertUrl (db : Store) (d : InsertData) : Option Store :=
  if isShortCodeUsed db.rows d.shortCode then none
  else some
    { rows := db.rows ++
        [{ id := db.nextId, shortCode := d.shortCode, filename := d.filename,
           originalName := d.originalName, uploadedAt := d.uploadedAt,
           size := d.size, mimetype := d.mimetype, accessCount := 0,
           lastAccessedAt := none }],
      nextId := db.nextId + 1 }

/-- SQLite's BINARY collation on TEXT values: lexicographic comparison of
the code points (memcmp over UTF-8 bytes orders exactly like this). -/
def collateLe : List Char → List Char → Bool
  | [], _ => true
  | _ :: _, [] => false
  | c :: cs, d :: ds =>
    if c.toNat = d.toNat then collateLe cs ds
    else decide (c.toNat < d.toNat)

theorem collateLe_total : ∀ xs ys : List Char,
    collateLe xs ys = true ∨ collateLe ys xs = true := by
  intro xs
  induction xs with
  | nil => intro ys; left; rfl
  | cons c cs ih =>
    intro ys
    cases ys with
    | nil => right; rfl
    | cons d ds =>
      by_cases h : c.toNat = d.toNat
      · rcases ih ds with h1 | h1
        · left; simp [collateLe, h, h1]
        · right; simp [collateLe, h.symm, h1]
      · rcases Nat.lt_or_ge c.toNat d.toNat with h1 | h1
        · left; simp [collateLe, h, h1]
        · right
          have hdc : ¬ d.toNat = c.toNat := fun he => h he.symm
          simp only [collateLe, if_neg hdc, decide_eq_true_eq]
          omega

theorem collateLe_trans : ∀ xs ys zs : List Char,
    collateLe xs ys = true → collateLe ys zs = true →
    collateLe xs zs = true := by
  intro xs
  induction xs with
  | nil => intro ys zs _ _; rfl
  | cons c cs ih =>
    intro ys zs h1 h2
    cases ys with
    | nil => simp [collateLe] at h1
    | cons d ds =>
      cases zs with
      | nil => simp [collateLe] at h2
      | cons e es =>
        simp only [collateLe] at h1 h2 ⊢
        by_cases hcd : c.toNat = d.toNat
        · by_cases hde : d.toNat = e.toNat
          · rw [if_pos hcd] at h1
            rw [if_pos hde] at h2
            rw [if_pos (hcd.trans hde)]
            exact ih ds es h1 h2
          · rw [if_neg hde, decide_eq_true_eq] at h2
            rw [if_neg (by omega), decide_eq_true_eq]
            omega
        · rw [if_neg hcd, decide_eq_true_eq] at h1
          by_cases hde : d.toNat = e.toNat
          · rw [if_neg (by omega), decide_eq_true_eq]
            omega
          · rw [if_neg hde, decide_eq_true_eq] at h2
            rw [if_neg (by omega), decide_eq_true_eq]
            omega

/-- Ordering used by `ORDER BY uploadedAt DESC` under the default BINARY
collation of the TEXT column. -/
def byUploadedAtDesc (a b : UrlRecord) : Prop :=
  collateLe b.uploadedAt.data a.uploadedAt.data = true

instance : DecidableRel byUploadedAtDesc := fun a b =>
  inferInstanceAs
    (Decidable (collateLe b.uploadedAt.data a.uploadedAt.data = true))

instance : IsTotal UrlRecord byUploadedAtDesc :=
  ⟨fun a b => collateLe_total b.uploadedAt.data a.uploadedAt.data⟩

instance : IsTrans UrlRecord byUploadedAtDesc :=
  ⟨fun _ _ _ h1 h2 => collateLe_trans _ _ _ h2 h1⟩

/-- The result order of `ORDER BY uploadedAt DESC`. -/
def sortByUploadedAtDesc (rows : List UrlRecord) : List UrlRecord :=
  List.insertionSort byUploadedAtDesc rows

/-- `DatabaseManager.getAllUrls`: `SELECT * FROM urls ORDER BY uploadedAt
DESC LIMIT ? OFFSET ?` (skip `offset` rows, return at most `limit`). -/
def getAllUrls (rows : List UrlRecord) (limit offset : Nat) :
    List UrlRecord :=
  ((sortByUploadedAtDesc rows).drop offset).take limit

/-- `DatabaseManager.getRecentUploads`: `SELECT * FROM urls ORDER BY
uploadedAt DESC LIMIT ?`. -/
def getRecentUploads (rows : List UrlRecord) (limit : Nat) :
    List UrlRecord :=
  (sortByUploadedAtDesc rows).take limit

/-- SQLite `LIKE` matching over characters: `%` matches any sequence, `_`
any single character, and other characters match ASCII-case-insensitively
(SQLite folds only A–Z, exactly what `Char.toLower` does). -/
def likeMatch : List Char → List Char → Bool
  | [], s => s.isEmpty
  | p :: ps, s =>
    if p = '%' then
      (List.range (s.length + 1)).any fun n => likeMatch ps (s.drop n)
    else
      match s with
      | [] => false
      | c :: cs =>
        (if p = '_' then true else Char.toLower p == Char.toLower c) &&
          likeMatch ps cs

/-- `DatabaseManager.searchUrls`: `SELECT * FROM urls WHERE originalName
LIKE ? ORDER BY uploadedAt DESC LIMIT ?` with the pattern `%{query}%`
(the query string is interpolated into the LIKE pattern unescaped). -/
def searchUrls (rows : List UrlRecord) (query : String) (limit : Nat) :
    List UrlRecord :=
  (sortByUploadedAtDesc (rows.filter fun r =>
    likeMatch ('%' :: (query.data ++ ['%'])) r.originalName.data)).take limit

/-- `DatabaseManager.getMostAccessedUrls`: `SELECT * FROM urls WHERE
accessCount > 0 ORDER BY accessCount DESC LIMIT ?`. -/
def getMostAccessedUrls (rows : List UrlRecord) (limit : Nat) :
    List UrlRecord :=
  ((rows.filter fun r => decide (0 < r.accessCount)).mergeSort
    fun a b => b.accessCount ≤ a.accessCount).take limit

/-- Aggregates returned by `DatabaseManager.getStats`.  SQL `SUM`/`AVG` over
an empty table yield NULL, which the `|| 0` in getStats turns into 0. -/
structure StatsResult where
  totalUrls : Nat
  totalSize : Nat
  totalAccess : Nat
  avgFileSize : ℚ
deriving Repr, DecidableEq

/-- `DatabaseManager.getStats`: `SELECT COUNT(*), SUM(size),
SUM(accessCount), AVG(size) FROM urls`, each NULL (empty table) coalesced to
0 by `result.x || 0`. -/
def getStats (rows : List UrlRecord) : StatsResult :=
  { totalUrls := rows.length,
    totalSize := (rows.map fun r => r.size).sum,
    totalAccess := (rows.map fun r => r.accessCount).sum,
    avgFileSize :=
      if rows.length = 0 then 0
      else ((rows.map fun r => r.size).sum : ℚ) / (rows.length : ℚ) }

/-- The regex check `/^[A-Za-z0-9]\x7b6,8\x7d$/.test(shortCode)` of the
`GET /:shortCode` handler: 6 to 8 characters, each an ASCII letter or digit
(`Char.isAlphanum` tests exactly `[A-Za-z0-9]`). -/
def isValidShortCode (code : String) : Bool :=
  decide (6 ≤ code.length) && decide (code.length ≤ 8) &&
    code.data.all Char.isAlphanum

/-- `CONFIG.MAX_FILE_SIZE = 50 * 1024 * 1024`. -/
def MAX_FILE_SIZE : Nat := 50 * 1024 * 1024

/-- Splitting a character list at `'/'` (the behaviour of
`String.splitOn "/"`, re-implemented structurally). -/
def splitSlashAux : List Char → List Char → List String
  | [], acc => [⟨acc.reverse⟩]
  | c :: cs, acc =>
    if c = '/' then ⟨acc.reverse⟩ :: splitSlashAux cs []
    else splitSlashAux cs (c :: acc)

/-- A path string as the list of its `'/'`-separated segments. -/
def splitSlash (s : String) : List String :=
  splitSlashAux s.data []

/-- Node `path.extname` applied to the uploaded file name: the basename's
suffix starting at its last dot, or the empty string when the basename has
no dot or starts with its only leading dot (dotfiles have no extension). -/
def extname (name : String) : String :=
  match ((splitSlash name).getLastD "").data.reverse.findIdx?
      (fun c => c = '.') with
  | none => ""
  | some k =>
    let b := ((splitSlash name).getLastD "").data
    if b.length - 1 - k = 0 then ""
    else ⟨b.drop (b.length - 1 - k)⟩

/-- One step of Node path normalization over path segments: `.` and empty
segments vanish, `..` pops the last segment (staying put at the root), and
any other segment is appended. -/
def normStep (acc : List String) (s : String) : List String :=
  if s = "" ∨ s = "." then acc
  else if s = ".." then acc.dropLast
  else acc ++ [s]

/-- `path.join(UPLOAD_DIR, filename)` with the absolute upload directory
given as its list of path segments `base`: Node joins the two paths with a
separator and normalizes `.`/`..`/empty segments. -/
def joinSegs (base : List String) (fname : String) : List String :=
  (base ++ splitSlash fname).foldl normStep []

/-- Response of the `GET /:shortCode` and `GET /file/:filename` handlers:
either a JSON error with its HTTP status and machine-readable error code, or
the served file (`Bun.file(filePath)`), identified by the path that was
resolved, as its segment list. -/
inductive FileResp where
  | err (httpStatus : Nat) (errorCode : String)
  | file (path : List String)
deriving Repr, DecidableEq

/-- The `GET /:shortCode` handler: validates the code against
`/^[A-Za-z0-9]\x7b6,8\x7d$/`, looks the record up, checks the backing file
exists (`fs.access`, modelled by the oracle `fileExists`), then increments
the access count and serves the file.  Each error path returns 404 with the
handler's error code and leaves the store untouched. -/
def shortCodeHandler (base : List String) (db : Store)
    (fileExists : List String → Bool) (now code : String) :
    FileResp × Store :=
  if isValidShortCode code = false then (.err 404 "INVALID_SHORT_CODE", db)
  else
    match getUrlByShortCode db.rows code with
    | none => (.err 404 "NOT_FOUND", db)
    | some r =>
      if fileExists (joinSegs base r.filename) = false then
        (.err 404 "FILE_NOT_FOUND", db)
      else
        (.file (joinSegs base r.filename),
          { db with rows := incrementAccessCount db.rows code now })

/-- The `GET /file/:filename` handler: resolves
`path.join(CONFIG.UPLOAD_DIR, filename)` with no sanitization of the
parameter, checks existence, and serves the file; it performs no database
operation, so the store passes through unchanged. -/
def fileHandler (base : List String) (db : Store)
    (fileExists : List String → Bool) (fname : String) :
    FileResp × Store :=
  (if fileExists (joinSegs base fname) = false then
    .err 404 "FILE_NOT_FOUND"
  else .file (joinSegs base fname), db)

/-- The uploaded multipart `file` field: its client-supplied name, byte
size, and content type (`""` models a missing/empty `file.type`, which is
falsy in JS). -/
structure UploadFile where
  name : String
  size : Nat
  type : String
deriving Repr, DecidableEq

/-- Response of the `POST /upload` handler (display-only fields such as
`sizeFormatted` and the constructed URLs are omitted). -/
inductive UploadResp where
  | err (httpStatus : Nat) (errorCode : String)
  | created (httpStatus : Nat) (shortCode filename : String)
deriving Repr, DecidableEq

/-- The `POST /upload` handler: 400 `MISSING_FILE` when no file field is
present, 413 `FILE_TOO_LARGE` when `file.size > CONFIG.MAX_FILE_SIZE`;
otherwise it draws a unique short code, writes
`{Date.now()}-{shortCode}{extname(file.name)}` to the upload directory,
inserts the record (mimetype defaulting to `application/octet-stream`), and
answers 201.  If the INSERT violates the UNIQUE constraint the `catch`
returns 500 with SQLite's message — the file has already been written.
The third component lists the filenames written to the upload directory. -/
def uploadHandler (db : Store) (stream : Nat → Fin 62) (timestampMs : Nat)
    (nowIso : String) (file? : Option UploadFile) :
    UploadResp × Store × List String :=
  match file? with
  | none => (.err 400 "MISSING_FILE", db, [])
  | some f =>
    if MAX_FILE_SIZE < f.size then (.err 413 "FILE_TOO_LARGE", db, [])
    else
      let code := generateUniqueShortCode db.rows stream
      let fname := toString timestampMs ++ "-" ++ code ++ extname f.name
      match insertUrl db
          { shortCode := code, filename := fname, originalName := f.name,
            uploadedAt := nowIso, size := f.size,
            mimetype := if f.type = "" then "application/octet-stream"
              else f.type } with
      | some db2 => (.created 201 code fname, db2, [fname])
      | none =>
        (.err 500 "UNIQUE constraint failed: urls.shortCode", db, [fname])

/-- `parseInt(query.x as string) || default`: an absent or zero numeric
query parameter falls back to the default (0 is falsy in JS). -/
def parseIntOr (q : Option Nat) (dflt : Nat) : Nat :=
  match q with
  | none => dflt
  | some 0 => dflt
  | some n => n

/-- Response of the `GET /urls` handler: the page of records plus the
`pagination` object `\x7blimit, offset, total, hasMore\x7d`. -/
structure UrlsResp where
  data : List UrlRecord
  limit : Nat
  offset : Nat
  total : Nat
  hasMore : Bool
deriving Repr, DecidableEq

/-- The `GET /urls` handler: applies the `|| 100` / `|| 0` defaults to the
query parameters, pages via `getAllUrls`, and reports
`hasMore = offset + limit < total`. -/
def urlsHandler (db : Store) (limitQ offsetQ : Option Nat) : UrlsResp :=
  let limit := parseIntOr limitQ 100
  let offset := parseIntOr offsetQ 0
  { data := getAllUrls db.rows limit offset,
    limit := limit, offset := offset,
    total := getTotalCount db.rows,
    hasMore := decide (offset + limit < getTotalCount db.rows) }

/-- Response of the `GET /urls/search` handler. -/
inductive SearchResp where
  | err (httpStatus : Nat) (errorCode : String)
  | ok (data : List UrlRecord)
deriving Repr, DecidableEq

/-- The `GET /urls/search` handler: `!searchQuery` (absent or empty string)
answers 400 `MISSING_QUERY` before any store access; otherwise it returns
`DatabaseManager.searchUrls(searchQuery)` with its default LIMIT of 50. -/
def searchHandler (db : Store) (q : Option String) : SearchResp :=
  match q with
  | none => .err 400 "MISSING_QUERY"
  | some s =>
    if s = "" then .err 400 "MISSING_QUERY"
    else .ok (searchUrls db.rows s 50)

/-- Response of the `DELETE /urls/:shortCode` handler: on success the
handler echoes the deleted record's `shortCode` and `originalName`. -/
inductive DeleteResp where
  | err (httpStatus : Nat) (errorCode : String)
  | ok (shortCode originalName : String)
deriving Repr, DecidableEq

/-- The `DELETE /urls/:shortCode` handler: 404 `NOT_FOUND` when the record
is absent; otherwise it runs `DatabaseManager.deleteUrl` (500
`DELETE_FAILED` if that reports no row removed), best-effort-unlinks the
backing file (errors swallowed, store unaffected), and answers with the
deleted record's short code and original name. -/
def deleteHandler (db : Store) (code : String) : DeleteResp × Store :=
  match getUrlByShortCode db.rows code with
  | none => (.err 404 "NOT_FOUND", db)
  | some r =>
    let res := deleteUrlOp db.rows code
    if res.2 = false then (.err 500 "DELETE_FAILED", { db with rows := res.1 })
    else (.ok code r.originalName, { db with rows := res.1 })

/-- The unit names of `formatBytes`. -/
def sizesArr : List String := ["Bytes", "KB", "MB", "GB", "TB"]

/-- `Math.floor(Math.log(q) / Math.log(1024))` for positive rational `q`,
computed exactly (negative for `q < 1`). -/
def floorLog1024 (q : ℚ) : Int :=
  if 1 ≤ q then ((Nat.log 1024 q.floor.toNat : Nat) : Int)
  else -((Nat.clog 1024 (q⁻¹).ceil.toNat : Nat) : Int)

/-- `parseFloat((value).toFixed(2))` rendered back to a string: round to two
decimals (half away from zero on the positive values that occur here) and
drop trailing zeros, as `parseFloat`'s round trip does. -/
def renderFixed2 (q : ℚ) : String :=
  let h := (round (q * 100)).toNat
  let ip := h / 100
  let fr := h % 100
  if fr = 0 then toString ip
  else if fr % 10 = 0 then toString ip ++ "." ++ toString (fr / 10)
  else if fr < 10 then toString ip ++ ".0" ++ toString fr
  else toString ip ++ "." ++ toString fr

/-- `formatBytes` from src/index.ts with its default `decimals = 2`:
`'0 Bytes'` for zero (guarding the `Math.log(0)` below), otherwise
`parseFloat((bytes / 1024**i).toFixed(2)) + ' ' + sizes[i]` with
`i = Math.floor(Math.log(bytes) / Math.log(1024))` (an out-of-range `i`
makes `sizes[i]` the JS value `undefined`). -/
def formatBytes (bytes : ℚ) : String :=
  if bytes = 0 then "0 Bytes"
  else
    let i := floorLog1024 bytes
    let scaled := bytes / (1024 : ℚ) ^ i
    let unit := if 0 ≤ i then sizesArr.getD i.toNat "undefined"
      else "undefined"
    renderFixed2 scaled ++ " " ++ unit

/-- The `database` section of the `GET /stats` handler's response:
`totalUrls`, `totalAccess`, and `formatBytes(dbStats.avgFileSize)`. -/
def statsDbSection (rows : List UrlRecord) : Nat × Nat × String :=
  ((getStats rows).totalUrls, (getStats rows).totalAccess,
    formatBytes (getStats rows).avgFileSize)

end Uploader

namespace Uploader

/-- The ten candidate codes the retry loop can draw, in order: attempt `j`
reads oracle positions `6*j … 6*j+5`. -/
def attemptCode (stream : Nat → Fin 62) (j : Nat) : String :=
  generateShortCode stream (6 * j) 6

theorem generateShortCode_length (stream : Nat → Fin 62) (offset length : Nat) :
    (generateShortCode stream offset length).length = length := by
  simp [generateShortCode, String.length]

/-- Loop invariant for `genAux`: starting at `attempt` with
`attempt + fuel = 10` and all earlier draws collided, the loop either returns
the first non-colliding draw among attempts `attempt … 9`, or all ten draws
collided and it returns the unchecked 8-character fallback. -/
theorem genAux_spec (rows : List UrlRecord) (stream : Nat → Fin 62) :
    ∀ fuel attempt, attempt + fuel = 10 →
    (∀ j < attempt, isShortCodeUsed rows (attemptCode stream j) = true) →
    (∃ k, attempt ≤ k ∧ k < 10 ∧
        genAux rows stream fuel attempt = attemptCode stream k ∧
        isShortCodeUsed rows (attemptCode stream k) = false ∧
        ∀ j < k, isShortCodeUsed rows (attemptCode stream j) = true) ∨
    ((∀ j < 10, isShortCodeUsed rows (attemptCode stream j) = true) ∧
        genAux rows stream fuel attempt = generateShortCode stream 60 8) := by
  intro fuel
  induction fuel with
  | zero =>
    intro attempt h10 hprev
    right
    refine ⟨?_, rfl⟩
    intro j hj
    exact hprev j (by omega)
  | succ n ih =>
    intro attempt h10 hprev
    by_cases hused :
        isShortCodeUsed rows (attemptCode stream attempt) = true
    · have hrec := ih (attempt + 1) (by omega) (by
        intro j hj
        by_cases hje : j = attempt
        · simpa [hje] using hused
        · exact hprev j (by omega))
      have hstep : genAux rows stream (n + 1) attempt =
          genAux rows stream n (attempt + 1) := by
        simp [genAux, attemptCode] at hused ⊢
        simp [hused]
      rcases hrec with ⟨k, hk1, hk2, hk3, hk4, hk5⟩ | ⟨hall, heq⟩
      · exact Or.inl ⟨k, by omega, hk2, by rw [hstep]; exact hk3, hk4, hk5⟩
      · exact Or.inr ⟨hall, by rw [hstep]; exact heq⟩
    · left
      refine ⟨attempt, le_refl _, by omega, ?_, ?_, hprev⟩
      · simp only [Bool.not_eq_true] at hused
        simp [genAux, attemptCode] at hused ⊢
        simp [hused]
      · simpa using hused

/-- C1: `generateUniqueShortCode` draws 6-character codes, checking
`isShortCodeUsed` after each draw, for up to 10 attempts; it returns the
first code whose existence check came back false (so it never returns a code
whose check returned true), and if all 10 attempts collide it returns one
freshly drawn 8-character code with no further check. -/
theorem generateUniqueShortCode_spec (rows : List UrlRecord)
    (stream : Nat → Fin 62) :
    ((∃ k, k < 10 ∧
        generateUniqueShortCode rows stream = attemptCode stream k ∧
        isShortCodeUsed rows (generateUniqueShortCode rows stream) = false ∧
        (generateUniqueShortCode rows stream).length = 6 ∧
        ∀ j < k, isShortCodeUsed rows (attemptCode stream j) = true) ∨
      ((∀ j < 10, isShortCodeUsed rows (attemptCode stream j) = true) ∧
        generateUniqueShortCode rows stream = generateShortCode stream 60 8 ∧
        (generateUniqueShortCode rows stream).length = 8)) := by
  have h := genAux_spec rows stream 10 0 rfl (by omega)
  rcases h with ⟨k, _, hk2, hk3, hk4, hk5⟩ | ⟨hall, heq⟩
  · left
    refine ⟨k, hk2, hk3, ?_, ?_, hk5⟩
    · rw [generateUniqueShortCode, hk3]
      exact hk4
    · rw [generateUniqueShortCode, hk3, attemptCode,
        generateShortCode_length]
  · right
    refine ⟨hall, heq, ?_⟩
    rw [generateUniqueShortCode, heq, generateShortCode_length]

theorem generateUniqueShortCode_spec_witness :
    ((∃ k, k < 10 ∧
        generateUniqueShortCode [] (fun _ => (⟨0, by omega⟩ : Fin 62)) =
          attemptCode (fun _ => (⟨0, by omega⟩ : Fin 62)) k ∧
        isShortCodeUsed []
          (generateUniqueShortCode [] (fun _ => (⟨0, by omega⟩ : Fin 62))) =
          false ∧
        (generateUniqueShortCode []
          (fun _ => (⟨0, by omega⟩ : Fin 62))).length = 6 ∧
        ∀ j < k, isShortCodeUsed []
          (attemptCode (fun _ => (⟨0, by omega⟩ : Fin 62)) j) = true) ∨
      ((∀ j < 10, isShortCodeUsed []
          (attemptCode (fun _ => (⟨0, by omega⟩ : Fin 62)) j) = true) ∧
        generateUniqueShortCode [] (fun _ => (⟨0, by omega⟩ : Fin 62)) =
          generateShortCode (fun _ => (⟨0, by omega⟩ : Fin 62)) 60 8 ∧
        (generateUniqueShortCode []
          (fun _ => (⟨0, by omega⟩ : Fin 62))).length = 8)) :=
  generateUniqueShortCode_spec [] (fun _ => (⟨0, by omega⟩ : Fin 62))

/-- A store used to instantiate witnesses: two records with distinct short
codes, upload times, and access counts. -/
def exampleStore : Store :=
  { rows :=
      [{ id := 1, shortCode := "abc123", filename := "100-abc123.txt",
         originalName := "notes.txt", uploadedAt := "2024-01-02T00:00:00Z",
         size := 10, mimetype := "text/plain", accessCount := 3,
         lastAccessedAt := some "2024-01-03T00:00:00Z" },
       { id := 2, shortCode := "xyz789", filename := "200-xyz789.pdf",
         originalName := "report.pdf", uploadedAt := "2024-01-01T00:00:00Z",
         size := 20, mimetype := "application/pdf", accessCount := 0,
         lastAccessedAt := none }],
    nextId := 3 }

/-- C2: when the short code is well-formed, resolves to a record, and the
backing file exists, `GET /:shortCode` serves that file and maps the store
so that exactly the rows carrying that short code get `accessCount + 1` (and
a fresh `lastAccessedAt`) while every other row — and every other field —
is unchanged; `GET /file/:filename` never changes the store at all. -/
theorem shortCodeHandler_incrementsOnce (base : List String) (db : Store)
    (fe : List String → Bool) (now code : String) (r : UrlRecord)
    (hv : isValidShortCode code = true)
    (hr : getUrlByShortCode db.rows code = some r)
    (hf : fe (joinSegs base r.filename) = true) :
    shortCodeHandler base db fe now code =
      (.file (joinSegs base r.filename),
        { db with rows := db.rows.map fun x =>
            if x.shortCode = code then
              { x with accessCount := x.accessCount + 1,
                       lastAccessedAt := some now }
            else x }) ∧
    (∀ i x y, db.rows.get? i = some x →
      (shortCodeHandler base db fe now code).2.rows.get? i = some y →
      (x.shortCode = code →
        y.accessCount = x.accessCount + 1 ∧ y.id = x.id ∧
        y.shortCode = x.shortCode ∧ y.filename = x.filename ∧
        y.originalName = x.originalName ∧ y.uploadedAt = x.uploadedAt ∧
        y.size = x.size ∧ y.mimetype = x.mimetype) ∧
      (x.shortCode ≠ code → y = x)) ∧
    (∀ fname, (fileHandler base db fe fname).2 = db) := by
  have hmain : shortCodeHandler base db fe now code =
      (.file (joinSegs base r.filename),
        { db with rows := db.rows.map fun x =>
            if x.shortCode = code then
              { x with accessCount := x.accessCount + 1,
                       lastAccessedAt := some now }
            else x }) := by
    simp [shortCodeHandler, hv, hr, hf, incrementAccessCount]
  refine ⟨hmain, ?_, fun _ => rfl⟩
  intro i x y hx hy
  rw [hmain] at hy
  simp only [List.get?_map, hx, Option.map_some', Option.some.injEq] at hy
  subst hy
  constructor
  · intro hxc
    simp [hxc]
  · intro hxc
    simp [hxc]

theorem shortCodeHandler_incrementsOnce_witness :
    shortCodeHandler ["public", "file"] exampleStore (fun _ => true)
        "2024-02-01T00:00:00Z" "abc123" =
      (.file ["public", "file", "100-abc123.txt"],
        { rows :=
            [{ id := 1, shortCode := "abc123",
               filename := "100-abc123.txt", originalName := "notes.txt",
               uploadedAt := "2024-01-02T00:00:00Z", size := 10,
               mimetype := "text/plain", accessCount := 4,
               lastAccessedAt := some "2024-02-01T00:00:00Z" },
             { id := 2, shortCode := "xyz789",
               filename := "200-xyz789.pdf", originalName := "report.pdf",
               uploadedAt := "2024-01-01T00:00:00Z", size := 20,
               mimetype := "application/pdf", accessCount := 0,
               lastAccessedAt := none }],
          nextId := 3 }) := by
  have h := shortCodeHandler_incrementsOnce ["public", "file"] exampleStore
    (fun _ => true) "2024-02-01T00:00:00Z" "abc123"
    (exampleStore.rows.get ⟨0, by decide⟩) (by decide) (by decide) rfl
  rw [h.1]
  decide

/-- C4: the failure taxonomy of `GET /:shortCode`.  A code failing the
`[A-Za-z0-9]` 6–8 regex answers 404 `INVALID_SHORT_CODE`; a well-formed code
with no record answers 404 `NOT_FOUND`; a record whose backing file is
missing answers 404 `FILE_NOT_FOUND`.  Each failure returns the store
unchanged (so no `accessCount` moves), and only in the remaining case is
the file served. -/
theorem shortCodeHandler_errors (base : List String) (db : Store)
    (fe : List String → Bool) (now code : String) :
    (isValidShortCode code = false →
      shortCodeHandler base db fe now code =
        (.err 404 "INVALID_SHORT_CODE", db)) ∧
    (isValidShortCode code = true →
      getUrlByShortCode db.rows code = none →
      shortCodeHandler base db fe now code = (.err 404 "NOT_FOUND", db)) ∧
    (∀ r, isValidShortCode code = true →
      getUrlByShortCode db.rows code = some r →
      fe (joinSegs base r.filename) = false →
      shortCodeHandler base db fe now code =
        (.err 404 "FILE_NOT_FOUND", db)) ∧
    (∀ r, isValidShortCode code = true →
      getUrlByShortCode db.rows code = some r →
      fe (joinSegs base r.filename) = true →
      (shortCodeHandler base db fe now code).1 =
        .file (joinSegs base r.filename)) := by
  refine ⟨?_, ?_, ?_, ?_⟩
  · intro hv
    simp [shortCodeHandler, hv]
  · intro hv hn
    simp [shortCodeHandler, hv, hn]
  · intro r hv hr hf
    simp [shortCodeHandler, hv, hr, hf]
  · intro r hv hr hf
    simp [shortCodeHandler, hv, hr, hf]

theorem shortCodeHandler_errors_witness :
    shortCodeHandler ["public", "file"] exampleStore (fun _ => true)
        "t" "ab!" = (.err 404 "INVALID_SHORT_CODE", exampleStore) ∧
    shortCodeHandler ["public", "file"] exampleStore (fun _ => true)
        "t" "zzzzzz" = (.err 404 "NOT_FOUND", exampleStore) ∧
    shortCodeHandler ["public", "file"] exampleStore (fun _ => false)
        "t" "abc123" = (.err 404 "FILE_NOT_FOUND", exampleStore) := by
  refine ⟨?_, ?_, ?_⟩
  · exact (shortCodeHandler_errors ["public", "file"] exampleStore
      (fun _ => true) "t" "ab!").1 (by decide)
  · exact (shortCodeHandler_errors ["public", "file"] exampleStore
      (fun _ => true) "t" "zzzzzz").2.1 (by decide) (by decide)
  · exact (shortCodeHandler_errors ["public", "file"] exampleStore
      (fun _ => false) "t" "abc123").2.2.1
      (exampleStore.rows.get ⟨0, by decide⟩) (by decide) (by decide) rfl

/-- C3: `DatabaseManager.deleteUrl` answers true exactly when the DELETE
removed a row (the table got shorter, equivalently a row carried the code),
and when the record exists the `DELETE /urls/:shortCode` handler removes
every row with that code and answers success with the deleted record's
`shortCode` and `originalName`. -/
theorem deleteUrl_spec (db : Store) (code : String) (r : UrlRecord) :
    ((deleteUrlOp db.rows code).2 = true ↔
      (deleteUrlOp db.rows code).1.length < db.rows.length) ∧
    ((deleteUrlOp db.rows code).2 = true ↔
      ∃ x ∈ db.rows, x.shortCode = code) ∧
    (getUrlByShortCode db.rows code = some r →
      deleteHandler db code =
        (.ok code r.originalName,
          { db with rows := (deleteUrlOp db.rows code).1 }) ∧
      isShortCodeUsed (deleteUrlOp db.rows code).1 code = false) := by
  have hiff : (deleteUrlOp db.rows code).2 = true ↔
      ∃ x ∈ db.rows, x.shortCode = code := by
    simp only [deleteUrlOp, decide_eq_true_eq, List.countP_pos]
    constructor
    · rintro ⟨x, hx, he⟩
      exact ⟨x, hx, by simpa using he⟩
    · rintro ⟨x, hx, he⟩
      exact ⟨x, hx, by simpa using he⟩
  have hlen : (deleteUrlOp db.rows code).2 = true ↔
      (deleteUrlOp db.rows code).1.length < db.rows.length := by
    rw [hiff]
    simp only [deleteUrlOp]
    rw [List.length_filter_lt_length_iff_exists]
    constructor
    · rintro ⟨x, hx, he⟩
      exact ⟨x, hx, by simpa using he⟩
    · rintro ⟨x, hx, he⟩
      exact ⟨x, hx, by simpa using he⟩
  refine ⟨hlen, hiff, ?_⟩
  intro hr
  have hmem : ∃ x ∈ db.rows, x.shortCode = code := by
    refine ⟨r, List.mem_of_find?_eq_some hr, ?_⟩
    have := List.find?_some hr
    simpa using this
  have hdel : (deleteUrlOp db.rows code).2 = true := hiff.mpr hmem
  constructor
  · simp only [deleteHandler, hr]
    rw [if_neg (by simp [hdel])]
  · simp [isShortCodeUsed, deleteUrlOp, List.countP_filter]

theorem deleteUrl_spec_witness :
    deleteHandler exampleStore "abc123" =
      (.ok "abc123" "notes.txt",
        { rows :=
            [{ id := 2, shortCode := "xyz789",
               filename := "200-xyz789.pdf", originalName := "report.pdf",
               uploadedAt := "2024-01-01T00:00:00Z", size := 20,
               mimetype := "application/pdf", accessCount := 0,
               lastAccessedAt := none }],
          nextId := 3 }) := by
  have h := (deleteUrl_spec exampleStore "abc123"
    (exampleStore.rows.get ⟨0, by decide⟩)).2.2 rfl
  rw [h.1]
  decide

/-- C6: across every mutating store operation no surviving record's
`accessCount` decreases.  A successful INSERT appends a row whose
`accessCount` is the SQL default 0 and leaves every existing row untouched
(a failed INSERT changes nothing); the UPDATE of `incrementAccessCount`
keeps every position and only ever moves a row's count from `c` to `c + 1`;
DELETE leaves a sublist of the old rows, each surviving row identical.  The
query operations (`getAllUrls`, `searchUrls`, `getStats`, …) are functions
of the row list that return no new store, so they cannot change any count. -/
theorem accessCount_monotone (db : Store) (d : InsertData)
    (code now : String) :
    (∀ db2, insertUrl db d = some db2 →
      db2.rows = db.rows ++
        [{ id := db.nextId, shortCode := d.shortCode,
           filename := d.filename, originalName := d.originalName,
           uploadedAt := d.uploadedAt, size := d.size,
           mimetype := d.mimetype, accessCount := 0,
           lastAccessedAt := none }]) ∧
    (incrementAccessCount db.rows code now).length = db.rows.length ∧
    (∀ i x y, db.rows.get? i = some x →
      (incrementAccessCount db.rows code now).get? i = some y →
      x.accessCount ≤ y.accessCount ∧
      (y.accessCount = x.accessCount ∨ y.accessCount = x.accessCount + 1)) ∧
    (deleteUrlOp db.rows code).1.Sublist db.rows := by
  refine ⟨?_, ?_, ?_, ?_⟩
  · intro db2 h
    rw [insertUrl] at h
    split at h
    · exact absurd h (by simp)
    · simpa using congrArg Store.rows (Option.some.inj h).symm
  · simp [incrementAccessCount]
  · intro i x y hx hy
    simp only [incrementAccessCount, List.get?_map, hx, Option.map_some',
      Option.some.injEq] at hy
    subst hy
    by_cases hc : x.shortCode = code
    · simp [hc]
    · simp [hc]
  · exact List.filter_sublist db.rows

theorem accessCount_monotone_witness :
    ({ rows := exampleStore.rows ++
        [{ id := 3, shortCode := "new456", filename := "300-new456.txt",
           originalName := "fresh.txt", uploadedAt := "2024-03-01T00:00:00Z",
           size := 5, mimetype := "text/plain", accessCount := 0,
           lastAccessedAt := none }],
       nextId := 4 } : Store).rows =
      exampleStore.rows ++
        [{ id := 3, shortCode := "new456", filename := "300-new456.txt",
           originalName := "fresh.txt", uploadedAt := "2024-03-01T00:00:00Z",
           size := 5, mimetype := "text/plain", accessCount := 0,
           lastAccessedAt := none }] ∧
    (deleteUrlOp exampleStore.rows "abc123").1.Sublist exampleStore.rows := by
  have h := accessCount_monotone exampleStore
    { shortCode := "new456", filename := "300-new456.txt",
      originalName := "fresh.txt", uploadedAt := "2024-03-01T00:00:00Z",
      size := 5, mimetype := "text/plain" } "abc123" "t"
  exact ⟨h.1 _ (by decide), h.2.2.2⟩

/-- A store with five records, uploaded at five distinct times, used for
the concrete pagination scenario of the spec. -/
def exampleStore5 : Store :=
  { rows := [
      { id := 1, shortCode := "aaaaa1", filename := "f1", originalName :=
        "n1", uploadedAt := "2024-01-01T00:00:00Z", size := 1,
        mimetype := "m", accessCount := 0, lastAccessedAt := none },
      { id := 2, shortCode := "aaaaa2", filename := "f2", originalName :=
        "n2", uploadedAt := "2024-01-03T00:00:00Z", size := 2,
        mimetype := "m", accessCount := 1, lastAccessedAt := none },
      { id := 3, shortCode := "aaaaa3", filename := "f3", originalName :=
        "n3", uploadedAt := "2024-01-02T00:00:00Z", size := 3,
        mimetype := "m", accessCount := 2, lastAccessedAt := none },
      { id := 4, shortCode := "aaaaa4", filename := "f4", originalName :=
        "n4", uploadedAt := "2024-01-05T00:00:00Z", size := 4,
        mimetype := "m", accessCount := 0, lastAccessedAt := none },
      { id := 5, shortCode := "aaaaa5", filename := "f5", originalName :=
        "n5", uploadedAt := "2024-01-04T00:00:00Z", size := 5,
        mimetype := "m", accessCount := 3, lastAccessedAt := none }],
    nextId := 6 }

/-- C7: `GET /urls` returns the page `take limit (drop offset ·)` of the
rows sorted by `uploadedAt` descending — so at most `limit` records (their
exact number being `min limit (total - offset)`), each a record of the
store, in descending `uploadedAt` order — together with the total count and
`hasMore = offset + limit < total`; with five records, `limit=2` and
`offset=0` it returns exactly 2 records and `hasMore = true`. -/
theorem urlsHandler_spec (db : Store) (limitQ offsetQ : Option Nat) :
    (urlsHandler db limitQ offsetQ).data.length =
      min (urlsHandler db limitQ offsetQ).limit
        (db.rows.length - (urlsHandler db limitQ offsetQ).offset) ∧
    (urlsHandler db limitQ offsetQ).data.length ≤
      (urlsHandler db limitQ offsetQ).limit ∧
    List.Sorted byUploadedAtDesc (urlsHandler db limitQ offsetQ).data ∧
    (∀ r ∈ (urlsHandler db limitQ offsetQ).data, r ∈ db.rows) ∧
    (urlsHandler db limitQ offsetQ).total = db.rows.length ∧
    ((urlsHandler db limitQ offsetQ).hasMore = true ↔
      (urlsHandler db limitQ offsetQ).offset +
        (urlsHandler db limitQ offsetQ).limit < db.rows.length) ∧
    (urlsHandler exampleStore5 (some 2) (some 0)).data.length = 2 ∧
    (urlsHandler exampleStore5 (some 2) (some 0)).hasMore = true := by
  have hsort : List.Sorted byUploadedAtDesc (sortByUploadedAtDesc db.rows) :=
    List.sorted_insertionSort byUploadedAtDesc db.rows
  have hlen : (sortByUploadedAtDesc db.rows).length = db.rows.length :=
    List.length_insertionSort byUploadedAtDesc db.rows
  have hsub : (urlsHandler db limitQ offsetQ).data.Sublist
      (sortByUploadedAtDesc db.rows) := by
    simp only [urlsHandler, getAllUrls]
    exact (List.take_sublist _ _).trans (List.drop_sublist _ _)
  refine ⟨?_, ?_, ?_, ?_, rfl, ?_, by decide, by decide⟩
  · simp [urlsHandler, getAllUrls, hlen]
  · simp only [urlsHandler, getAllUrls]
    simp [List.length_take]
  · exact hsort.sublist hsub
  · intro r hr
    exact (List.perm_insertionSort byUploadedAtDesc db.rows).subset
      (hsub.subset hr)
  · simp [urlsHandler, getTotalCount]

theorem genAux_is_draw (rows : List UrlRecord) (stream : Nat → Fin 62) :
    ∀ fuel attempt, ∃ o n,
      genAux rows stream fuel attempt = generateShortCode stream o n ∧
      (n = 6 ∨ n = 8) := by
  intro fuel
  induction fuel with
  | zero => exact fun _ => ⟨60, 8, rfl, Or.inr rfl⟩
  | succ m ih =>
    intro attempt
    by_cases h :
        isShortCodeUsed rows (generateShortCode stream (6 * attempt) 6) = true
    · obtain ⟨o, n, he, hn⟩ := ih (attempt + 1)
      refine ⟨o, n, ?_, hn⟩
      simp only [genAux]
      rw [if_pos h]
      exact he
    · refine ⟨6 * attempt, 6, ?_, Or.inl rfl⟩
      simp only [genAux]
      rw [if_neg (by simpa using h)]

theorem charsList_alnum : ∀ c ∈ charsList, c.isAlphanum = true := by
  decide

theorem generateShortCode_chars_alnum (stream : Nat → Fin 62)
    (offset length : Nat) :
    (generateShortCode stream offset length).data.all Char.isAlphanum =
      true := by
  simp only [generateShortCode, List.all_eq_true, List.mem_map]
  rintro c ⟨i, _, rfl⟩
  have hlt : (stream (offset + i)).val < charsList.length :=
    (stream (offset + i)).isLt
  rw [List.getD_eq_getElem charsList 'A' hlt]
  exact charsList_alnum _ (List.getElem_mem hlt)

/-- The code produced by `generateUniqueShortCode` always passes the
`[A-Za-z0-9] 6 to 8` format check: every draw has 6 characters, the
fallback 8, and all characters come from the alphanumeric alphabet. -/
theorem generateUniqueShortCode_isValid (rows : List UrlRecord)
    (stream : Nat → Fin 62) :
    isValidShortCode (generateUniqueShortCode rows stream) = true := by
  obtain ⟨o, n, he, hn⟩ := genAux_is_draw rows stream 10 0
  rw [generateUniqueShortCode, he]
  simp only [isValidShortCode, Bool.and_eq_true, decide_eq_true_eq,
    generateShortCode_length]
  refine ⟨⟨?_, ?_⟩, generateShortCode_chars_alnum stream o n⟩
  · rcases hn with rfl | rfl <;> omega
  · rcases hn with rfl | rfl <;> omega

/-- C5 (amended): `POST /upload` with no file answers 400 `MISSING_FILE`,
and with a file over the 50 MiB maximum answers 413 `FILE_TOO_LARGE`; in
both cases the store gains no record and nothing is written to the upload
directory.  A file of size at most the maximum yields 201 with a short code
matching `[A-Za-z0-9]` 6 to 8 — provided the code drawn by
`generateUniqueShortCode` is not already present in the store; when the
(unchecked) fallback code collides, the INSERT's UNIQUE constraint makes the
handler answer 500 instead (see the counterexample), with the file already
written. -/
theorem uploadHandler_spec (db : Store) (stream : Nat → Fin 62)
    (ts : Nat) (now : String) :
    (uploadHandler db stream ts now none = (.err 400 "MISSING_FILE", db, [])) ∧
    (∀ f : UploadFile, MAX_FILE_SIZE < f.size →
      uploadHandler db stream ts now (some f) =
        (.err 413 "FILE_TOO_LARGE", db, [])) ∧
    (∀ f : UploadFile, f.size ≤ MAX_FILE_SIZE →
      isShortCodeUsed db.rows (generateUniqueShortCode db.rows stream) =
        false →
      ∃ db2, uploadHandler db stream ts now (some f) =
        (.created 201 (generateUniqueShortCode db.rows stream)
          (toString ts ++ "-" ++ generateUniqueShortCode db.rows stream ++
            extname f.name), db2,
          [toString ts ++ "-" ++ generateUniqueShortCode db.rows stream ++
            extname f.name]) ∧
        isValidShortCode (generateUniqueShortCode db.rows stream) = true) := by
  refine ⟨rfl, ?_, ?_⟩
  · intro f hf
    simp only [uploadHandler]
    rw [if_pos hf]
  · intro f hf hfree
    simp only [uploadHandler]
    rw [if_neg (by omega)]
    simp only [insertUrl, hfree, Bool.false_eq_true, if_false]
    exact ⟨_, rfl, generateUniqueShortCode_isValid db.rows stream⟩

/-- An oracle that makes every `Math.random` draw pick index 0, so every
6-character draw is `AAAAAA` and the fallback is `AAAAAAAA`. -/
def zeroStream : Nat → Fin 62 := fun _ => ⟨0, by omega⟩

theorem uploadHandler_spec_witness :
    ∃ db2, uploadHandler exampleStore zeroStream 100 "2024-04-01T00:00:00Z"
        (some { name := "a.txt", size := 1, type := "" }) =
      (.created 201
        (generateUniqueShortCode exampleStore.rows zeroStream)
        (toString 100 ++ "-" ++
          generateUniqueShortCode exampleStore.rows zeroStream ++
          extname "a.txt"), db2,
        [toString 100 ++ "-" ++
          generateUniqueShortCode exampleStore.rows zeroStream ++
          extname "a.txt"]) ∧
      isValidShortCode
        (generateUniqueShortCode exampleStore.rows zeroStream) = true := by
  exact (uploadHandler_spec exampleStore zeroStream 100
    "2024-04-01T00:00:00Z").2.2 { name := "a.txt", size := 1, type := "" }
    (by decide) (by decide)

/-- A store that already contains both the constant 6-character draw
`AAAAAA` and the 8-character fallback `AAAAAAAA`. -/
def collisionStore : Store :=
  { rows :=
      [{ id := 1, shortCode := "AAAAAA", filename := "1-AAAAAA.txt",
         originalName := "a.txt", uploadedAt := "2024-01-01T00:00:00Z",
         size := 1, mimetype := "text/plain", accessCount := 0,
         lastAccessedAt := none },
       { id := 2, shortCode := "AAAAAAAA", filename := "2-AAAAAAAA.txt",
         originalName := "b.txt", uploadedAt := "2024-01-02T00:00:00Z",
         size := 2, mimetype := "text/plain", accessCount := 0,
         lastAccessedAt := none }],
    nextId := 3 }

/-- Counterexample to C5 as stated: uploading a 1-byte file (well under the
maximum) while all ten 6-character draws and the unchecked 8-character
fallback collide with existing records makes the INSERT hit the UNIQUE
constraint, so the handler answers 500, not 201. -/
theorem uploadHandler_collision_counterexample :
    (uploadHandler collisionStore zeroStream 100 "t"
        (some { name := "a.txt", size := 1, type := "" })).1 =
      .err 500 "UNIQUE constraint failed: urls.shortCode" ∧
    (1 : Nat) ≤ MAX_FILE_SIZE := by
  constructor
  · decide
  · decide

theorem foldl_normStep_plain (l : List String)
    (h : ∀ s ∈ l, s ≠ "" ∧ s ≠ "." ∧ s ≠ "..") :
    ∀ acc, l.foldl normStep acc = acc ++ l := by
  induction l with
  | nil => intro acc; simp
  | cons s t ih =>
    intro acc
    have hs := h s (List.mem_cons_self s t)
    have hstep : normStep acc s = acc ++ [s] := by
      simp [normStep, hs.1, hs.2.1, hs.2.2]
    rw [List.foldl_cons, hstep,
      ih (fun x hx => h x (List.mem_cons_of_mem s hx))]
    simp

theorem foldl_normStep_keeps_prefix (l : List String)
    (h : ∀ s ∈ l, s ≠ "..") :
    ∀ acc, acc <+: l.foldl normStep acc := by
  induction l with
  | nil => intro acc; simp
  | cons s t ih =>
    intro acc
    have hs := h s (List.mem_cons_self s t)
    have hsub : acc <+: normStep acc s := by
      simp only [normStep, if_neg hs]
      split
      · exact List.prefix_refl acc
      · exact ⟨[s], rfl⟩
    exact hsub.trans
      (by rw [List.foldl_cons]
          exact ih (fun x hx => h x (List.mem_cons_of_mem s hx))
            (normStep acc s))

/-- C10 (amended): for a filename whose `/`-separated segments contain no
`..`, the path `path.join(UPLOAD_DIR, filename)` served by
`GET /file/:filename` stays inside the upload directory (the directory's
segments are a prefix of the resolved path's), and the handler only ever
serves that resolved path.  The handler performs no sanitization, so this
containment fails for filenames with `..` segments — see the
counterexample. -/
theorem fileHandler_containment (base : List String) (fname : String)
    (hbase : ∀ s ∈ base, s ≠ "" ∧ s ≠ "." ∧ s ≠ "..")
    (hf : ∀ s ∈ splitSlash fname, s ≠ "..") :
    base <+: joinSegs base fname ∧
    (∀ (db : Store) (fe : List String → Bool),
      (fileHandler base db fe fname).1 = .err 404 "FILE_NOT_FOUND" ∨
      (fileHandler base db fe fname).1 = .file (joinSegs base fname)) := by
  constructor
  · rw [joinSegs, List.foldl_append, foldl_normStep_plain base hbase []]
    have := foldl_normStep_keeps_prefix (splitSlash fname) hf ([] ++ base)
    simpa using this
  · intro db fe
    by_cases h : fe (joinSegs base fname) = false
    · left; simp [fileHandler, h]
    · right; simp [fileHandler, h]

theorem fileHandler_containment_witness :
    ["public", "file"] <+: joinSegs ["public", "file"] "100-abc123.txt" ∧
    (∀ (db : Store) (fe : List String → Bool),
      (fileHandler ["public", "file"] db fe "100-abc123.txt").1 =
        .err 404 "FILE_NOT_FOUND" ∨
      (fileHandler ["public", "file"] db fe "100-abc123.txt").1 =
        .file (joinSegs ["public", "file"] "100-abc123.txt")) := by
  exact fileHandler_containment ["public", "file"] "100-abc123.txt"
    (by decide) (by decide)

/-- Counterexample to C10 as stated: the filename parameter
`../../etc/passwd` resolves through `path.join` to a path outside the
upload directory, and the handler serves it when the file exists — a
path-traversal flaw. -/
theorem fileHandler_traversal_counterexample :
    (fileHandler ["public", "file"] exampleStore (fun _ => true)
        "../../etc/passwd").1 = .file ["etc", "passwd"] ∧
    ¬ (["public", "file"] <+: ["etc", "passwd"]) := by
  constructor
  · decide
  · decide

/-- The specification's notion of a search hit, written from its words:
the record's `originalName` contains the query as a substring,
case-insensitively (ASCII folding).  Used to compare the spec against the
LIKE-based implementation. -/
def specContainsCI (q s : String) : Bool :=
  (List.range ((s.data.map Char.toLower).length + 1)).any fun i =>
    (q.data.map Char.toLower).isPrefixOf ((s.data.map Char.toLower).drop i)

theorem specContainsCI_iff (q s : String) :
    specContainsCI q s = true ↔
    ∃ n, n ≤ s.data.length ∧
      (q.data.map Char.toLower) <+: ((s.data.drop n).map Char.toLower) := by
  simp [specContainsCI, List.any_eq_true, List.mem_range, Nat.lt_succ_iff,
    List.map_drop]

theorem likeMatch_percent_iff (ps s : List Char) :
    likeMatch ('%' :: ps) s = true ↔
    ∃ n, n ≤ s.length ∧ likeMatch ps (s.drop n) = true := by
  simp [likeMatch, List.any_eq_true, List.mem_range, Nat.lt_succ_iff]

theorem likeMatch_plain_percent (p : List Char)
    (hp : ∀ c ∈ p, c ≠ '%' ∧ c ≠ '_') :
    ∀ s : List Char, likeMatch (p ++ ['%']) s = true ↔
      (p.map Char.toLower) <+: (s.map Char.toLower) := by
  induction p with
  | nil =>
    intro s
    simp only [List.nil_append, List.map_nil]
    constructor
    · intro _
      exact List.nil_prefix
    · intro _
      rw [likeMatch_percent_iff]
      exact ⟨s.length, le_refl _, by simp [likeMatch]⟩
  | cons a p ih =>
    intro s
    have ha := hp a (List.mem_cons_self a p)
    cases s with
    | nil =>
      simp only [List.cons_append, List.map_cons, List.map_nil]
      constructor
      · intro h
        simp [likeMatch, ha.1] at h
      · intro h
        exact absurd h (by simp)
    | cons c cs =>
      have hstep : likeMatch (a :: (p ++ ['%'])) (c :: cs) =
          ((if a = '_' then true else Char.toLower a == Char.toLower c) &&
            likeMatch (p ++ ['%']) cs) := by
        simp [likeMatch, ha.1]
      simp only [List.cons_append, List.map_cons, hstep, if_neg ha.2,
        List.cons_prefix_cons, Bool.and_eq_true, beq_iff_eq]
      rw [ih (fun x hx => hp x (List.mem_cons_of_mem a hx)) cs]

/-- For query strings free of the LIKE wildcards `%` and `_`, the pattern
`%query%` matches a name exactly when the name contains the query as a
case-insensitive substring. -/
theorem likeMatch_eq_specContainsCI (q s : String)
    (hq : ∀ c ∈ q.data, c ≠ '%' ∧ c ≠ '_') :
    likeMatch ('%' :: (q.data ++ ['%'])) s.data = specContainsCI q s := by
  rw [← Bool.coe_iff_coe, likeMatch_percent_iff, specContainsCI_iff]
  constructor
  · rintro ⟨n, hn, hm⟩
    exact ⟨n, hn, (likeMatch_plain_percent q.data hq (s.data.drop n)).mp hm⟩
  · rintro ⟨n, hn, hm⟩
    exact ⟨n, hn, (likeMatch_plain_percent q.data hq (s.data.drop n)).mpr hm⟩

/-- C8 (amended): for a non-empty query containing no LIKE wildcard (`%`
or `_`) and matching at most the LIMIT of 50 records, `GET /urls/search`
returns exactly the records whose `originalName` contains the query
case-insensitively, ordered by `uploadedAt` descending; an absent or empty
query answers 400 `MISSING_QUERY`, identically for every store — the store
is not consulted.  (With wildcard queries the LIKE pattern matches more
than substring containment — see the counterexample — and with more than
50 hits the LIMIT truncates the result.) -/
theorem searchHandler_spec (db : Store) (q : String) (hq : q ≠ "")
    (hmeta : ∀ c ∈ q.data, c ≠ '%' ∧ c ≠ '_')
    (hcount :
      (db.rows.filter fun r => specContainsCI q r.originalName).length ≤ 50) :
    searchHandler db (some q) =
      .ok (sortByUploadedAtDesc
        (db.rows.filter fun r => specContainsCI q r.originalName)) ∧
    List.Sorted byUploadedAtDesc
      (sortByUploadedAtDesc
        (db.rows.filter fun r => specContainsCI q r.originalName)) ∧
    (sortByUploadedAtDesc
        (db.rows.filter fun r => specContainsCI q r.originalName)).Perm
      (db.rows.filter fun r => specContainsCI q r.originalName) ∧
    searchHandler db none = .err 400 "MISSING_QUERY" ∧
    searchHandler db (some "") = .err 400 "MISSING_QUERY" ∧
    (∀ db2 : Store, searchHandler db2 none = searchHandler db none) := by
  have hfeq : (db.rows.filter fun r =>
      likeMatch ('%' :: (q.data ++ ['%'])) r.originalName.data) =
      db.rows.filter fun r => specContainsCI q r.originalName :=
    List.filter_congr fun r _ =>
      likeMatch_eq_specContainsCI q r.originalName hmeta
  refine ⟨?_, List.sorted_insertionSort _ _, List.perm_insertionSort _ _,
    rfl, rfl, fun _ => rfl⟩
  simp only [searchHandler, if_neg hq, searchUrls, hfeq]
  rw [List.take_of_length_le]
  rw [sortByUploadedAtDesc, List.length_insertionSort]
  exact hcount

/-- A one-record store whose `originalName` is the single letter `a`. -/
def searchCexStore : Store :=
  { rows :=
      [{ id := 1, shortCode := "abc123", filename := "1-abc123",
         originalName := "a", uploadedAt := "2024-01-01T00:00:00Z",
         size := 1, mimetype := "m", accessCount := 0,
         lastAccessedAt := none }],
    nextId := 2 }

theorem searchHandler_spec_witness :
    searchHandler searchCexStore (some "A") =
      .ok (sortByUploadedAtDesc
        (searchCexStore.rows.filter fun r =>
          specContainsCI "A" r.originalName)) ∧
    searchHandler searchCexStore none = .err 400 "MISSING_QUERY" := by
  have h := searchHandler_spec searchCexStore "A" (by decide) (by decide)
    (by decide)
  exact ⟨h.1, h.2.2.2.1⟩

/-- Counterexample to C8 as stated: the query `_` is interpolated into the
LIKE pattern, where `_` is a wildcard matching any single character, so the
search returns the record named `a` even though `a` does not contain the
substring `_`. -/
theorem searchHandler_wildcard_counterexample :
    searchHandler searchCexStore (some "_") =
      .ok [{ id := 1, shortCode := "abc123", filename := "1-abc123",
             originalName := "a", uploadedAt := "2024-01-01T00:00:00Z",
             size := 1, mimetype := "m", accessCount := 0,
             lastAccessedAt := none }] ∧
    specContainsCI "_" "a" = false := by
  constructor
  · decide
  · decide

theorem urlsHandler_spec_witness :
    (urlsHandler exampleStore5 (some 2) (some 0)).data.length =
      min (urlsHandler exampleStore5 (some 2) (some 0)).limit
        (exampleStore5.rows.length -
          (urlsHandler exampleStore5 (some 2) (some 0)).offset) ∧
    ((urlsHandler exampleStore5 (some 2) (some 0)).hasMore = true ↔
      (urlsHandler exampleStore5 (some 2) (some 0)).offset +
        (urlsHandler exampleStore5 (some 2) (some 0)).limit <
        exampleStore5.rows.length) ∧
    (urlsHandler exampleStore5 (some 2) (some 0)).data.length = 2 := by
  have h := urlsHandler_spec exampleStore5 (some 2) (some 0)
  exact ⟨h.1, h.2.2.2.2.2.1, h.2.2.2.2.2.2.1⟩

/-- C9: with an empty store the aggregate statistics are all zero (SQL
`SUM`/`AVG` return NULL on an empty table and the code coalesces them with
`|| 0`, and `COUNT(*)` is 0, so no division by zero happens), and the
`GET /stats` endpoint formats the zero average through the `bytes === 0`
guard of `formatBytes` as the string `0 Bytes` — never reaching the
`Math.log(bytes)` expression that would be `-Infinity` at 0. -/
theorem getStats_empty_zero :
    getStats [] =
      { totalUrls := 0, totalSize := 0, totalAccess := 0,
        avgFileSize := 0 } ∧
    statsDbSection [] = (0, 0, "0 Bytes") ∧
    formatBytes 0 = "0 Bytes" := by
  refine ⟨by decide, ?_, by decide⟩
  simp only [statsDbSection]
  decide

end Uploader
